import Mathlib

/-!
Verification of the expense aggregation and filtering engine of
src/ExpenseScreen.js (Student Expense Tracker).

Embedding conventions:
- JS numbers are modelled as exact rationals (`Rat`); `Number(e.amount)` is
  the identity on already-numeric values, so it disappears.
- JS strings are Lean strings; `String.prototype.trim` is modelled on the
  character list (ASCII whitespace core of the Unicode set JS trims).
- The SQLite table is a list of rows plus the AUTOINCREMENT counter.
- A JS `Date` value is a calendar date plus a fractional time-of-day, in a
  UTC environment (local time = UTC), so that the timestamp order
  coincides with lexicographic order on (year, month, day, time).
- The JS object built by `totalsByCategory` is an association list that
  updates in place and appends unseen keys (its insertion order); the
  ECMA-262 enumeration order of its keys — array-index-like keys first in
  ascending numeric order, then the rest in insertion order — is modelled
  on top by `jsObjectKeys`.
-/

/-- A calendar date (year, month, day) as read off a JS Date via
getFullYear / getMonth + 1 / getDate. -/
structure CalDate where
  year : Int
  month : Int
  day : Int
  deriving DecidableEq

/-- Chronological strict order on calendar dates (lexicographic, which for
valid dates agrees with timestamp order). -/
def CalDate.lt (a b : CalDate) : Prop :=
  a.year < b.year ∨
    (a.year = b.year ∧ (a.month < b.month ∨ (a.month = b.month ∧ a.day < b.day)))

/-- Chronological order on calendar dates (lexicographic). -/
def CalDate.le (a b : CalDate) : Prop :=
  a.year < b.year ∨
    (a.year = b.year ∧ (a.month < b.month ∨ (a.month = b.month ∧ a.day ≤ b.day)))

instance (a b : CalDate) : Decidable (CalDate.lt a b) := by
  unfold CalDate.lt; infer_instance

instance (a b : CalDate) : Decidable (CalDate.le a b) := by
  unfold CalDate.le; infer_instance

/-- A JS Date value: calendar date plus time-of-day as a fraction of a day.
A Date parsed from a date-only string has time 0. -/
structure JsDate where
  date : CalDate
  time : Rat
  deriving DecidableEq

/-- Timestamp comparison `new Date(dateString) <= now` where the left side
sits at midnight of day `d`: true iff `d` is an earlier date than `now`, or
the same date with `now` at or past midnight. -/
def dateLeJsDate (d : CalDate) (now : JsDate) : Prop :=
  CalDate.lt d now.date ∨ (d = now.date ∧ 0 ≤ now.time)

instance (d : CalDate) (now : JsDate) : Decidable (dateLeJsDate d now) := by
  unfold dateLeJsDate; infer_instance

/-- Number of days in a month of the proleptic Gregorian calendar. -/
def daysInMonth (y m : Int) : Int :=
  if m = 2 then (if (y % 4 = 0 ∧ y % 100 ≠ 0) ∨ y % 400 = 0 then 29 else 28)
  else if m = 4 ∨ m = 6 ∨ m = 9 ∨ m = 11 then 30 else 31

/-- Step one day back in the calendar (the rollover that JS
`d.setDate(d.getDate() - k)` performs once per day subtracted). -/
def predDate (d : CalDate) : CalDate :=
  if 1 < d.day then ⟨d.year, d.month, d.day - 1⟩
  else if 1 < d.month then ⟨d.year, d.month - 1, daysInMonth d.year (d.month - 1)⟩
  else ⟨d.year - 1, 12, 31⟩

/-- Model of `d.setDate(d.getDate() - k)` for `k ≥ 0`: step the calendar
back `k` days. -/
def subDays (d : CalDate) : Nat → CalDate
  | 0 => d
  | n + 1 => subDays (predDate d) n

/-- Days since 1970-01-01 of a proleptic Gregorian date (the timestamp
arithmetic underlying JS Date; `/` on `Int` is floor division here since
the divisors are positive). -/
def daysFromCivil (yy m d : Int) : Int :=
  let y := if m ≤ 2 then yy - 1 else yy
  let era := y / 400
  let yoe := y - era * 400
  let doy := (153 * (if 2 < m then m - 3 else m + 9) + 2) / 5 + d - 1
  let doe := yoe * 365 + yoe / 4 - yoe / 100 + doy
  era * 146097 + doe - 719468

/-- Model of `Date.prototype.getDay`: 0 = Sunday, ..., 6 = Saturday
(1970-01-01 was a Thursday, weekday 4). -/
def jsGetDay (d : CalDate) : Int :=
  (daysFromCivil d.year d.month d.day + 4) % 7

/-- Model of `getStartOfWeek` from the source: strip the time-of-day, then step back
`(getDay() + 6) % 7` days, i.e. to the most recent Monday. -/
def getStartOfWeek (now : JsDate) : CalDate :=
  let dayOfWeek := jsGetDay now.date
  let diffToMonday := (dayOfWeek + 6) % 7
  subDays now.date diffToMonday.toNat

/-- Model of `getStartOfMonth` from the source: first day of the current month. -/
def getStartOfMonth (now : JsDate) : CalDate :=
  ⟨now.date.year, now.date.month, 1⟩

/-- One row of the `expenses` table. -/
structure Expense where
  id : Nat
  amount : Rat
  category : String
  note : Option String
  date : String
  deriving DecidableEq

/-- Numeric value of a digit string. -/
def digitsToNat (cs : List Char) : Nat :=
  cs.foldl (fun n c => 10 * n + (c.toNat - 48)) 0

/-- Model of `new Date(dateString)` on the ISO `YYYY-MM-DD` date-only form:
returns the calendar date, or `none` (Invalid Date) when the string is not
a well-formed, in-range date of that shape. -/
def parseDate (s : String) : Option CalDate :=
  match s.data with
  | [y1, y2, y3, y4, h1, m1, m2, h2, d1, d2] =>
    if (h1 == '-') && (h2 == '-') && y1.isDigit && y2.isDigit && y3.isDigit &&
        y4.isDigit && m1.isDigit && m2.isDigit && d1.isDigit && d2.isDigit then
      let y : Int := digitsToNat [y1, y2, y3, y4]
      let m : Int := digitsToNat [m1, m2]
      let d : Int := digitsToNat [d1, d2]
      if 1 ≤ m ∧ m ≤ 12 ∧ 1 ≤ d ∧ d ≤ daysInMonth y m then some ⟨y, m, d⟩
      else none
    else none
  | _ => none

/-- Model of `filteredExpenses` from the source: the record list restricted by the
active filter. A record whose date does not parse (Invalid Date) fails
both timestamp comparisons in JS, hence is excluded. -/
def filteredExpenses (expenses : List Expense) (filter : String) (now : JsDate) :
    List Expense :=
  if filter = "all" then expenses
  else if filter = "week" then
    let startOfWeek := getStartOfWeek now
    expenses.filter fun e =>
      match parseDate e.date with
      | some d => decide (CalDate.le startOfWeek d) && decide (dateLeJsDate d now)
      | none => false
  else if filter = "month" then
    let startOfMonth := getStartOfMonth now
    expenses.filter fun e =>
      match parseDate e.date with
      | some d => decide (CalDate.le startOfMonth d) && decide (dateLeJsDate d now)
      | none => false
  else expenses

/-- Model of `totalSpending` from the source:
`filteredExpenses.reduce((sum, e) => sum + Number(e.amount), 0)`. -/
def totalSpending (filteredRecords : List Expense) : Rat :=
  filteredRecords.foldl (fun sum e => sum + e.amount) 0

/-- Bucket key of a record, after the source expression
`e.category || "Other"`: an empty category string is falsy in JS and
falls back to the sentinel bucket. -/
def bucketCategory (e : Expense) : String :=
  if e.category = "" then "Other" else e.category

/-- One loop iteration of `totalsByCategory` on the insertion-ordered
object: add `amt` to the bucket of `cat`, appending a fresh bucket (seeded
by `totals[cat] = 0`) when the key is unseen. -/
def addToCategory (totals : List (String × Rat)) (cat : String) (amt : Rat) :
    List (String × Rat) :=
  match totals with
  | [] => [(cat, amt)]
  | (c, v) :: rest =>
    if c = cat then (c, v + amt) :: rest
    else (c, v) :: addToCategory rest cat amt

/-- Model of `totalsByCategory` from the source: fold the filtered records into an
insertion-ordered category → subtotal map. -/
def totalsByCategory (filteredRecords : List Expense) : List (String × Rat) :=
  filteredRecords.foldl (fun totals e => addToCategory totals (bucketCategory e) e.amount) []

/-- One pie-chart slice as built by `pieChartData`. -/
structure Segment where
  name : String
  population : Rat
  color : String
  legendFontColor : String
  legendFontSize : Nat
  deriving DecidableEq

/-- The fixed five-color palette of `pieChartData`. -/
def pieColors : List String :=
  ["#fbbf24", "#3b82f6", "#10b981", "#f97316", "#a855f7"]

/-- Mapping step of `pieChartData`, which maps over the entries together
with the running index used for color assignment. -/
def mapSegments : Nat → List (String × Rat) → List Segment
  | _, [] => []
  | index, (category, total) :: rest =>
    { name := category, population := total,
      color := pieColors.getD (index % pieColors.length) "",
      legendFontColor := "#e5e7eb", legendFontSize := 12 } :: mapSegments (index + 1) rest

/-- Model of `pieChartData` from the source: empty when there are no entries,
otherwise one segment per entry with cyclic colors. -/
def pieChartData (totals : List (String × Rat)) : List Segment :=
  if totals.length = 0 then [] else mapSegments 0 totals

/- ---------- theorems ---------- -/

theorem foldl_add_amount (es : List Expense) :
    ∀ a : Rat, es.foldl (fun sum e => sum + e.amount) a = a + (es.map Expense.amount).sum := by
  induction es with
  | nil => intro a; simp
  | cons e t ih =>
    intro a
    simp only [List.foldl_cons, List.map_cons, List.sum_cons, ih]
    ring

theorem totalSpending_eq_sum (es : List Expense) :
    totalSpending es = (es.map Expense.amount).sum := by
  simpa [totalSpending] using foldl_add_amount es 0

/-- C1: `totalSpending` of the empty list is 0, and on any filtered record
list it equals the sum of the amount fields of exactly those records. -/
theorem C1_totalSpending_sum :
    totalSpending [] = 0 ∧
      ∀ filteredRecords : List Expense,
        totalSpending filteredRecords = (filteredRecords.map Expense.amount).sum :=
  ⟨rfl, totalSpending_eq_sum⟩

/-- Value stored under a key of the association list, 0 when absent
(mirrors reading `totals[cat]` with the falsy-undefined default). -/
def lookupTotal : List (String × Rat) → String → Rat
  | [], _ => 0
  | (c, v) :: rest, cat => if c = cat then v else lookupTotal rest cat

theorem addToCategory_lookup (l : List (String × Rat)) (c : String) (a : Rat)
    (c' : String) :
    lookupTotal (addToCategory l c a) c' =
      lookupTotal l c' + (if c = c' then a else 0) := by
  induction l with
  | nil => by_cases h : c = c' <;> simp [addToCategory, lookupTotal, h]
  | cons q rest ih =>
    obtain ⟨c0, v⟩ := q
    by_cases h0 : c0 = c
    · subst h0
      by_cases h1 : c0 = c' <;> simp [addToCategory, lookupTotal, h1]
    · by_cases h1 : c0 = c'
      · subst h1
        have hne : c ≠ c0 := fun hh => h0 hh.symm
        simp [addToCategory, lookupTotal, h0, hne]
      · simp [addToCategory, lookupTotal, h0, h1, ih]

theorem addToCategory_keys (l : List (String × Rat)) (c : String) (a : Rat) :
    (addToCategory l c a).map Prod.fst =
      if c ∈ l.map Prod.fst then l.map Prod.fst else l.map Prod.fst ++ [c] := by
  induction l with
  | nil => simp [addToCategory]
  | cons q rest ih =>
    obtain ⟨c0, v⟩ := q
    by_cases h0 : c0 = c
    · subst h0; simp [addToCategory]
    · have hne : c ≠ c0 := fun hh => h0 hh.symm
      by_cases hm : c ∈ rest.map Prod.fst <;>
        simp [addToCategory, h0, ih, hm, hne]

theorem addToCategory_sumValues (l : List (String × Rat)) (c : String) (a : Rat) :
    ((addToCategory l c a).map Prod.snd).sum = (l.map Prod.snd).sum + a := by
  induction l with
  | nil => simp [addToCategory]
  | cons q rest ih =>
    obtain ⟨c0, v⟩ := q
    by_cases h0 : c0 = c <;> simp [addToCategory, h0, ih] <;> ring

theorem addToCategory_nodupKeys (l : List (String × Rat)) (c : String) (a : Rat)
    (h : (l.map Prod.fst).Nodup) : ((addToCategory l c a).map Prod.fst).Nodup := by
  rw [addToCategory_keys]
  by_cases hm : c ∈ l.map Prod.fst
  · simpa [hm] using h
  · simp [hm, List.nodup_append, h]

theorem lookupTotal_of_mem (l : List (String × Rat)) (p : String × Rat)
    (hnd : (l.map Prod.fst).Nodup) (hp : p ∈ l) : lookupTotal l p.1 = p.2 := by
  induction l with
  | nil => simp at hp
  | cons q rest ih =>
    obtain ⟨c0, v⟩ := q
    simp only [List.map_cons, List.nodup_cons] at hnd
    rcases List.mem_cons.mp hp with h | h
    · subst h; simp [lookupTotal]
    · have hmem : p.1 ∈ rest.map Prod.fst := List.mem_map.mpr ⟨p, h, rfl⟩
      have hne : c0 ≠ p.1 := fun hEq => hnd.1 (hEq ▸ hmem)
      simp only [lookupTotal, if_neg hne]
      exact ih hnd.2 h

theorem tbc_foldl_lookup (es : List Expense) :
    ∀ (totals : List (String × Rat)) (c : String),
      lookupTotal
          (es.foldl (fun totals e => addToCategory totals (bucketCategory e) e.amount) totals) c
        = lookupTotal totals c +
            ((es.filter fun e => bucketCategory e == c).map Expense.amount).sum := by
  induction es with
  | nil => intro totals c; simp
  | cons e t ih =>
    intro totals c
    simp only [List.foldl_cons, List.filter_cons]
    rw [ih, addToCategory_lookup]
    by_cases h : bucketCategory e = c
    · simp only [h, if_pos rfl, beq_self_eq_true, if_pos, List.map_cons, List.sum_cons]
      ring
    · simp [h]

theorem tbc_foldl_sum (es : List Expense) :
    ∀ totals : List (String × Rat),
      ((es.foldl (fun totals e => addToCategory totals (bucketCategory e) e.amount) totals).map
          Prod.snd).sum
        = (totals.map Prod.snd).sum + (es.map Expense.amount).sum := by
  induction es with
  | nil => intro totals; simp
  | cons e t ih =>
    intro totals
    simp only [List.foldl_cons, List.map_cons, List.sum_cons]
    rw [ih, addToCategory_sumValues]
    ring

theorem tbc_foldl_nodupKeys (es : List Expense) :
    ∀ totals : List (String × Rat), (totals.map Prod.fst).Nodup →
      ((es.foldl (fun totals e => addToCategory totals (bucketCategory e) e.amount) totals).map
          Prod.fst).Nodup := by
  induction es with
  | nil => intro totals h; simpa using h
  | cons e t ih =>
    intro totals h
    simp only [List.foldl_cons]
    exact ih _ (addToCategory_nodupKeys _ _ _ h)

/-- C2: each bucket of `totalsByCategory` holds the sum of the amounts of
the filtered records in that category, and the bucket values sum to
`totalSpending` of the filtered set. -/
theorem C2_totalsByCategory_buckets (filteredRecords : List Expense) :
    (∀ p ∈ totalsByCategory filteredRecords,
        p.2 = totalSpending (filteredRecords.filter fun e => bucketCategory e == p.1)) ∧
      ((totalsByCategory filteredRecords).map Prod.snd).sum =
        totalSpending filteredRecords := by
  constructor
  · intro p hp
    have hnd : ((totalsByCategory filteredRecords).map Prod.fst).Nodup :=
      tbc_foldl_nodupKeys filteredRecords [] (by simp)
    have h1 := lookupTotal_of_mem _ p hnd hp
    have h2 := tbc_foldl_lookup filteredRecords [] p.1
    rw [totalSpending_eq_sum]
    calc p.2 = lookupTotal (totalsByCategory filteredRecords) p.1 := h1.symm
      _ = lookupTotal [] p.1 +
            ((filteredRecords.filter fun e => bucketCategory e == p.1).map Expense.amount).sum :=
        h2
      _ = ((filteredRecords.filter fun e => bucketCategory e == p.1).map Expense.amount).sum := by
        simp [lookupTotal]
  · have h := tbc_foldl_sum filteredRecords []
    rw [totalSpending_eq_sum]
    simpa using h

/-- The order in which the spec lists the category keys: the order in which
each distinct category is first seen while traversing the filtered
records (stated from the spec for comparison with the map built by the code). -/
def specFirstSeenOrder (filteredRecords : List Expense) : List String :=
  filteredRecords.foldl
    (fun acc e => if bucketCategory e ∈ acc then acc else acc ++ [bucketCategory e]) []

theorem tbc_foldl_keys (es : List Expense) :
    ∀ totals : List (String × Rat),
      (es.foldl (fun totals e => addToCategory totals (bucketCategory e) e.amount) totals).map
          Prod.fst
        = es.foldl
            (fun acc e => if bucketCategory e ∈ acc then acc else acc ++ [bucketCategory e])
            (totals.map Prod.fst) := by
  induction es with
  | nil => intro totals; simp
  | cons e t ih =>
    intro totals
    simp only [List.foldl_cons]
    rw [ih, addToCategory_keys]

/-- The storage order of the association list underlying the object built
by `totalsByCategory` is the first-seen order of the categories. This is
the order in which the keys were inserted, not yet the order in which JS
enumerates them (see `jsObjectKeys`). -/
theorem totalsByCategory_keys_first_seen (filteredRecords : List Expense) :
    (totalsByCategory filteredRecords).map Prod.fst = specFirstSeenOrder filteredRecords := by
  have h := tbc_foldl_keys filteredRecords []
  simpa [totalsByCategory, specFirstSeenOrder] using h

/-- Whether a property key is an array index in the sense of ECMA-262: the
canonical base-10 string (no sign, no leading zero except for the string
consisting of the single digit 0) of an integer below 2 ^ 32 - 1. -/
def isArrayIndexKey (s : String) : Bool :=
  match s.data with
  | [] => false
  | c :: cs =>
    (c :: cs).all Char.isDigit && (c != '0' || cs.isEmpty) &&
      decide (digitsToNat (c :: cs) < 4294967295)

/-- Insert a key into a list sorted by ascending numeric value. -/
def insertAsc (k : String) : List String → List String
  | [] => [k]
  | x :: xs =>
    if digitsToNat k.data ≤ digitsToNat x.data then k :: x :: xs
    else x :: insertAsc k xs

/-- Sort keys by ascending numeric value (insertion sort). -/
def sortKeysAsc : List String → List String
  | [] => []
  | x :: xs => insertAsc x (sortKeysAsc xs)

/-- Model of the ECMA-262 enumeration order (OrdinaryOwnPropertyKeys, used
by the Object.keys and Object.entries calls of the source): array-index
keys first, in ascending numeric order, then the remaining string keys in
insertion order. -/
def jsObjectKeys (totals : List (String × Rat)) : List String :=
  let keys := totals.map Prod.fst
  sortKeysAsc (keys.filter isArrayIndexKey) ++
    keys.filter (fun k => !isArrayIndexKey k)

/-- Two records whose categories are a plain word and an array-index-like
string, in that insertion order. -/
def cexRecords : List Expense :=
  [{ id := 1, amount := 10, category := "Food", note := none, date := "2024-01-01" },
   { id := 2, amount := 20, category := "7", note := none, date := "2024-01-02" }]

/-- C6 counterexample: with categories first seen in the order Food, 7,
JS enumerates the keys of the totals object as 7, Food — the array-index
key 7 jumps to the front — so the keys are not listed in first-seen
order. -/
theorem C6_counterexample :
    jsObjectKeys (totalsByCategory cexRecords) = ["7", "Food"] ∧
      specFirstSeenOrder cexRecords = ["Food", "7"] ∧
      jsObjectKeys (totalsByCategory cexRecords) ≠ specFirstSeenOrder cexRecords := by
  decide

/-- C6 (amended): the keys of `totalsByCategory` are enumerated with the
array-index-like categories first, in ascending numeric order, followed by
the remaining categories in the order each one is first seen while
traversing the filtered records. -/
theorem C6_totalsByCategory_key_order_amended (filteredRecords : List Expense) :
    jsObjectKeys (totalsByCategory filteredRecords) =
      sortKeysAsc ((specFirstSeenOrder filteredRecords).filter isArrayIndexKey) ++
        (specFirstSeenOrder filteredRecords).filter (fun k => !isArrayIndexKey k) := by
  unfold jsObjectKeys
  rw [totalsByCategory_keys_first_seen]

theorem mapSegments_proj (l : List (String × Rat)) :
    ∀ i : Nat, (mapSegments i l).map (fun s => (s.name, s.population)) = l := by
  induction l with
  | nil => intro i; simp [mapSegments]
  | cons p rest ih =>
    intro i
    obtain ⟨c, t⟩ := p
    simp [mapSegments, ih]

/-- C5: `pieChartData` yields exactly one segment per entry of the
category → total mapping, in order and with the matching value, and is
empty exactly when the mapping is empty. -/
theorem C5_pieChartData_segments (totals : List (String × Rat)) :
    (pieChartData totals).map (fun s => (s.name, s.population)) = totals ∧
      (pieChartData totals = [] ↔ totals = []) := by
  cases totals with
  | nil => simp [pieChartData, mapSegments]
  | cons p rest =>
    obtain ⟨c, t⟩ := p
    constructor
    · simpa [pieChartData] using mapSegments_proj ((c, t) :: rest) 0
    · simp [pieChartData, mapSegments]

/-- C3: with the `all` filter, a non-empty record list comes back
unchanged, in the same order. -/
theorem C3_filter_all_id (expenses : List Expense) (now : JsDate)
    (_hne : expenses ≠ []) : filteredExpenses expenses "all" now = expenses := by
  simp [filteredExpenses]

/-- C9: any filter string other than the three recognized modes falls
through to the full record list, unchanged. -/
theorem C9_unknown_filter_id (expenses : List Expense) (filter : String)
    (now : JsDate) (h1 : filter ≠ "all") (h2 : filter ≠ "week")
    (h3 : filter ≠ "month") : filteredExpenses expenses filter now = expenses := by
  simp [filteredExpenses, h1, h2, h3]

theorem predDate_lt (d : CalDate) : CalDate.lt (predDate d) d := by
  obtain ⟨y, m, dd⟩ := d
  unfold predDate CalDate.lt
  split
  · dsimp only; omega
  · split <;> dsimp only <;> omega

theorem CalDate.le_refl (d : CalDate) : CalDate.le d d := by
  unfold CalDate.le; omega

theorem CalDate.le_trans (a b c : CalDate) (h1 : CalDate.le a b)
    (h2 : CalDate.le b c) : CalDate.le a c := by
  unfold CalDate.le at *; omega

theorem CalDate.le_of_lt (a b : CalDate) (h : CalDate.lt a b) : CalDate.le a b := by
  unfold CalDate.lt at h; unfold CalDate.le; omega

theorem subDays_le (k : Nat) : ∀ d : CalDate, CalDate.le (subDays d k) d := by
  induction k with
  | zero => intro d; exact CalDate.le_refl d
  | succ n ih =>
    intro d
    exact CalDate.le_trans _ _ _ (ih (predDate d)) (CalDate.le_of_lt _ _ (predDate_lt d))

theorem getStartOfWeek_le (now : JsDate) : CalDate.le (getStartOfWeek now) now.date :=
  subDays_le _ now.date

/-- C4: a record dated on the current calendar date is kept by both the
week filter and the month filter when `now` lies on that date. -/
theorem C4_today_in_week_and_month (expenses : List Expense) (e : Expense)
    (now : JsDate) (hmem : e ∈ expenses)
    (hdate : parseDate e.date = some now.date) (hday : 1 ≤ now.date.day)
    (htime : 0 ≤ now.time) :
    e ∈ filteredExpenses expenses "week" now ∧
      e ∈ filteredExpenses expenses "month" now := by
  have hnow : dateLeJsDate now.date now := Or.inr ⟨rfl, htime⟩
  constructor
  · simp only [filteredExpenses, if_neg (by decide : ¬("week" : String) = "all"),
      if_pos rfl]
    refine List.mem_filter.mpr ⟨hmem, ?_⟩
    rw [hdate]
    simp only [Bool.and_eq_true, decide_eq_true_eq]
    exact ⟨getStartOfWeek_le now, hnow⟩
  · simp only [filteredExpenses, if_neg (by decide : ¬("month" : String) = "all"),
      if_neg (by decide : ¬("month" : String) = "week"), if_pos rfl]
    refine List.mem_filter.mpr ⟨hmem, ?_⟩
    rw [hdate]
    simp only [Bool.and_eq_true, decide_eq_true_eq]
    refine ⟨?_, hnow⟩
    unfold getStartOfMonth CalDate.le
    dsimp only
    omega

/-- The whitespace class trimmed by `String.prototype.trim` (ASCII core). -/
def jsWhitespace (c : Char) : Bool :=
  (c == ' ') || (c == '\t') || (c == '\n') || (c == '\r') || (c == '\x0b') || (c == '\x0c')

/-- Trim a character list at both ends. -/
def trimList (cs : List Char) : List Char :=
  List.rdropWhile jsWhitespace (List.dropWhile jsWhitespace cs)

/-- Model of `String.prototype.trim`. -/
def jsTrim (s : String) : String :=
  ⟨trimList s.data⟩

theorem dropWhile_eq_self_of_append (p : Char → Bool) (l t : List Char)
    (h : List.dropWhile p (l ++ t) = l ++ t) : List.dropWhile p l = l := by
  cases l with
  | nil => rfl
  | cons a u =>
    rw [List.cons_append, List.dropWhile_cons] at h
    rw [List.dropWhile_cons]
    by_cases hp : p a = true
    · exfalso
      rw [if_pos hp] at h
      have hlen := congrArg List.length h
      have hle := List.Sublist.length_le (List.dropWhile_sublist (l := u ++ t) p)
      simp only [List.length_cons] at hlen
      omega
    · rw [if_neg hp]

theorem trimList_dropWhile (cs : List Char) :
    List.dropWhile jsWhitespace (trimList cs) = trimList cs := by
  unfold trimList
  obtain ⟨t, ht⟩ := List.rdropWhile_prefix jsWhitespace (List.dropWhile jsWhitespace cs)
  exact dropWhile_eq_self_of_append jsWhitespace _ t
    (by rw [ht]; exact List.dropWhile_idempotent jsWhitespace cs)

theorem trimList_idem (cs : List Char) : trimList (trimList cs) = trimList cs := by
  show List.rdropWhile jsWhitespace (List.dropWhile jsWhitespace (trimList cs)) = trimList cs
  rw [trimList_dropWhile]
  unfold trimList
  exact List.rdropWhile_idempotent jsWhitespace _

theorem jsTrim_idem (s : String) : jsTrim (jsTrim s) = jsTrim s :=
  String.ext (trimList_idem s.data)

/-- Longest leading run of decimal digits, with the remainder. -/
def spanDigits : List Char → List Char × List Char
  | [] => ([], [])
  | c :: cs =>
    if c.isDigit then
      let (ds, rest) := spanDigits cs
      (c :: ds, rest)
    else ([], c :: cs)

/-- Value of the digits after a decimal point. -/
def fracValue (ds : List Char) : Rat :=
  (digitsToNat ds : Rat) / ((10 : Rat) ^ ds.length)

/-- Signed power of ten. -/
def pow10 (e : Int) : Rat :=
  if 0 ≤ e then (10 : Rat) ^ e.toNat else 1 / (10 : Rat) ^ (-e).toNat

/-- Optional signed integer; an empty digit run contributes exponent 0
(the dangling `e` is then trailing junk that parseFloat ignores). -/
def parseSignedInt (cs : List Char) : Int :=
  match cs with
  | '-' :: rest =>
    let (ds, _) := spanDigits rest
    if ds = [] then 0 else -(digitsToNat ds : Int)
  | '+' :: rest =>
    let (ds, _) := spanDigits rest
    if ds = [] then 0 else (digitsToNat ds : Int)
  | _ =>
    let (ds, _) := spanDigits cs
    if ds = [] then 0 else (digitsToNat ds : Int)

/-- Exponent part of a decimal literal, 0 when absent or malformed. -/
def parseExponent : List Char → Int
  | 'e' :: rest => parseSignedInt rest
  | 'E' :: rest => parseSignedInt rest
  | _ => 0

/-- Parse the longest decimal-literal run at the front of the characters:
sign, integer digits, optional fraction, optional exponent. `none` when no
digit is read (JS NaN). -/
def parseFloatCore (cs : List Char) : Option Rat :=
  let signAndRest : Rat × List Char :=
    match cs with
    | '-' :: rest => (-1, rest)
    | '+' :: rest => (1, rest)
    | _ => (1, cs)
  let (intDigits, afterInt) := spanDigits signAndRest.2
  let fracAndRest : List Char × List Char :=
    match afterInt with
    | '.' :: rest => spanDigits rest
    | _ => ([], afterInt)
  if intDigits = [] ∧ fracAndRest.1 = [] then none
  else
    let mantissa : Rat := (digitsToNat intDigits : Rat) + fracValue fracAndRest.1
    some (signAndRest.1 * mantissa * pow10 (parseExponent fracAndRest.2))

/-- Model of JS `parseFloat` on finite decimal literals: skip leading
whitespace, then read the longest literal, ignoring trailing junk. -/
def parseFloat (s : String) : Option Rat :=
  parseFloatCore (s.data.dropWhile jsWhitespace)

/-- The `expenses` table plus its AUTOINCREMENT counter. -/
structure Store where
  rows : List Expense
  nextId : Nat
  deriving DecidableEq

/-- Model of the insert statement
`INSERT INTO expenses (amount, category, note, date) VALUES (?,?,?,?)`
with the autoassigned primary key. -/
def Store.insertRow (st : Store) (amount : Rat) (category : String)
    (note : Option String) (date : String) : Store :=
  { rows := st.rows ++
      [{ id := st.nextId, amount := amount, category := category, note := note,
         date := date }],
    nextId := st.nextId + 1 }

/-- Model of the update statement
`UPDATE expenses SET amount = ?, category = ?, note = ?, date = ? WHERE id = ?`. -/
def Store.updateRow (st : Store) (id : Nat) (amount : Rat) (category : String)
    (note : Option String) (date : String) : Store :=
  { st with
    rows := st.rows.map fun e =>
      if e.id = id then
        { e with amount := amount, category := category, note := note, date := date }
      else e }

/-- The add-form fields read by `addExpense`. -/
structure AddForm where
  amount : String
  category : String
  note : String
  deriving DecidableEq

/-- Two-digit zero-padded rendering. -/
def pad2 (n : Int) : String :=
  if n < 10 then "0" ++ toString n else toString n

/-- Four-digit zero-padded rendering. -/
def pad4 (n : Int) : String :=
  if n < 10 then "000" ++ toString n
  else if n < 100 then "00" ++ toString n
  else if n < 1000 then "0" ++ toString n
  else toString n

/-- Model of `new Date().toISOString().slice(0, 10)`: the `YYYY-MM-DD`
rendering of the current date. -/
def formatISODate (d : CalDate) : String :=
  pad4 d.year ++ "-" ++ pad2 d.month ++ "-" ++ pad2 d.day

/-- Model of `addExpense` from the source, as a transition on (store, form): the
result is the new store, the new form fields, and the alert raised, if
any. Validation failures return before any mutation. -/
def addExpense (st : Store) (form : AddForm) (today : CalDate) :
    Store × AddForm × Option String :=
  match parseFloat form.amount with
  | none => (st, form, some "Amount must be a positive number.")
  | some amountNumber =>
    if amountNumber ≤ 0 then (st, form, some "Amount must be a positive number.")
    else
      let trimmedCategory := jsTrim form.category
      let trimmedNote := jsTrim form.note
      if trimmedCategory = "" then (st, form, some "Category is required.")
      else
        (st.insertRow amountNumber trimmedCategory
            (if trimmedNote = "" then none else some trimmedNote)
            (formatISODate today),
          { amount := "", category := "", note := "" }, none)

/-- The editing state read by `saveEdit`: the expense being edited (if
any) and the fields of the modal. -/
structure EditForm where
  editing : Option Expense
  amount : String
  category : String
  note : String
  date : String
  deriving DecidableEq

/-- Model of `saveEdit` from the source, as a transition on (store, edit state):
returns early when nothing is being edited, aborts with an alert on
validation failure, otherwise updates the row and closes the modal. -/
def saveEdit (st : Store) (form : EditForm) : Store × EditForm × Option String :=
  match form.editing with
  | none => (st, form, none)
  | some editingExpense =>
    match parseFloat form.amount with
    | none => (st, form, some "Amount must be a positive number.")
    | some amountNumber =>
      if amountNumber ≤ 0 then (st, form, some "Amount must be a positive number.")
      else
        let trimmedCategory := jsTrim form.category
        let trimmedNote := jsTrim form.note
        let trimmedDate := jsTrim form.date
        if trimmedCategory = "" then (st, form, some "Category is required.")
        else if trimmedDate = "" then (st, form, some "Date is required (YYYY-MM-DD).")
        else
          (st.updateRow editingExpense.id amountNumber trimmedCategory
              (if trimmedNote = "" then none else some trimmedNote) trimmedDate,
            { form with editing := none }, none)

/-- C7: a validation failure on add or on edit-save raises an alert and
leaves the store and all form state untouched. -/
theorem C7_validation_aborts :
    (∀ (st : Store) (form : AddForm) (today : CalDate),
        (parseFloat form.amount = none ∨
            (∃ a, parseFloat form.amount = some a ∧ a ≤ 0) ∨
            jsTrim form.category = "") →
        ∃ msg, addExpense st form today = (st, form, some msg)) ∧
      (∀ (st : Store) (form : EditForm) (exp : Expense),
        form.editing = some exp →
        (parseFloat form.amount = none ∨
            (∃ a, parseFloat form.amount = some a ∧ a ≤ 0) ∨
            jsTrim form.category = "" ∨ jsTrim form.date = "") →
        ∃ msg, saveEdit st form = (st, form, some msg)) := by
  constructor
  · intro st form today h
    rcases hp : parseFloat form.amount with _ | a
    · exact ⟨"Amount must be a positive number.", by simp [addExpense, hp]⟩
    · by_cases ha : a ≤ 0
      · exact ⟨"Amount must be a positive number.", by simp [addExpense, hp, ha]⟩
      · have hcat : jsTrim form.category = "" := by
          rcases h with h | ⟨b, hb, hb0⟩ | h
          · rw [hp] at h; exact absurd h (by simp)
          · rw [hp] at hb
            injection hb with hb
            exact absurd (hb ▸ hb0) ha
          · exact h
        exact ⟨"Category is required.", by simp [addExpense, hp, ha, hcat]⟩
  · intro st form exp hedit h
    rcases hp : parseFloat form.amount with _ | a
    · exact ⟨"Amount must be a positive number.", by simp [saveEdit, hedit, hp]⟩
    · by_cases ha : a ≤ 0
      · exact ⟨"Amount must be a positive number.", by simp [saveEdit, hedit, hp, ha]⟩
      · have hrest : jsTrim form.category = "" ∨ jsTrim form.date = "" := by
          rcases h with h | ⟨b, hb, hb0⟩ | h | h
          · rw [hp] at h; exact absurd h (by simp)
          · rw [hp] at hb
            injection hb with hb
            exact absurd (hb ▸ hb0) ha
          · exact Or.inl h
          · exact Or.inr h
        by_cases hcat : jsTrim form.category = ""
        · exact ⟨"Category is required.", by simp [saveEdit, hedit, hp, ha, hcat]⟩
        · have hdate : jsTrim form.date = "" := hrest.resolve_left hcat
          exact ⟨"Date is required (YYYY-MM-DD).",
            by simp [saveEdit, hedit, hp, ha, hcat, hdate]⟩

theorem formatISODate_ne_empty (d : CalDate) : formatISODate d ≠ "" := by
  intro h
  have hlen := congrArg String.length h
  unfold formatISODate at hlen
  simp only [String.length_append] at hlen
  have h1 : ("-" : String).length = 1 := rfl
  have h0 : ("" : String).length = 0 := rfl
  simp only [h1, h0] at hlen
  omega

/-- C8: every record written by `addExpense` (insert) or `saveEdit`
(update) has a positive amount, a category that survives trimming, and a
non-empty date, so the record invariants are preserved by the mutating
operations. -/
theorem C8_written_record_invariants :
    (∀ (st : Store) (form : AddForm) (today : CalDate) (e : Expense),
        e ∈ (addExpense st form today).1.rows →
        e ∈ st.rows ∨ (0 < e.amount ∧ jsTrim e.category ≠ "" ∧ e.date ≠ "")) ∧
      (∀ (st : Store) (form : EditForm) (e : Expense),
        e ∈ (saveEdit st form).1.rows →
        e ∈ st.rows ∨ (0 < e.amount ∧ jsTrim e.category ≠ "" ∧ e.date ≠ "")) := by
  constructor
  · intro st form today e he
    rcases hp : parseFloat form.amount with _ | a
    · left; simpa [addExpense, hp] using he
    · by_cases ha : a ≤ 0
      · left; simpa [addExpense, hp, ha] using he
      · by_cases hcat : jsTrim form.category = ""
        · left; simpa [addExpense, hp, ha, hcat] using he
        · simp only [addExpense, hp, ha, hcat, if_neg, if_false, Store.insertRow,
            List.mem_append, List.mem_singleton] at he
          rcases he with h | rfl
          · exact Or.inl h
          · right
            refine ⟨not_le.mp ha, ?_, formatISODate_ne_empty today⟩
            show jsTrim (jsTrim form.category) ≠ ""
            rw [jsTrim_idem]
            exact hcat
  · intro st form e he
    rcases hedit : form.editing with _ | exp
    · left; simpa [saveEdit, hedit] using he
    · rcases hp : parseFloat form.amount with _ | a
      · left; simpa [saveEdit, hedit, hp] using he
      · by_cases ha : a ≤ 0
        · left; simpa [saveEdit, hedit, hp, ha] using he
        · by_cases hcat : jsTrim form.category = ""
          · left; simpa [saveEdit, hedit, hp, ha, hcat] using he
          · by_cases hdate : jsTrim form.date = ""
            · left; simpa [saveEdit, hedit, hp, ha, hcat, hdate] using he
            · simp only [saveEdit, hedit, hp, ha, hcat, hdate, if_neg, if_false,
                Store.updateRow, List.mem_map] at he
              obtain ⟨x, hx, hfx⟩ := he
              by_cases hid : x.id = exp.id
              · rw [if_pos hid] at hfx
                subst hfx
                right
                refine ⟨not_le.mp ha, ?_, hdate⟩
                show jsTrim (jsTrim form.category) ≠ ""
                rw [jsTrim_idem]
                exact hcat
              · rw [if_neg hid] at hfx
                subst hfx
                exact Or.inl hx

/-- C10: a note that trims to the empty string is stored as null, any
other note is stored trimmed — on add and on edit-save alike (stated via
the exact rows written on a successful submission). -/
theorem C10_note_normalization :
    (∀ (st : Store) (form : AddForm) (today : CalDate) (a : Rat),
        parseFloat form.amount = some a → 0 < a → jsTrim form.category ≠ "" →
        (addExpense st form today).1.rows =
          st.rows ++
            [{ id := st.nextId, amount := a, category := jsTrim form.category,
               note := if jsTrim form.note = "" then none else some (jsTrim form.note),
               date := formatISODate today }]) ∧
      (∀ (st : Store) (form : EditForm) (exp : Expense) (a : Rat),
        form.editing = some exp → parseFloat form.amount = some a → 0 < a →
        jsTrim form.category ≠ "" → jsTrim form.date ≠ "" →
        (saveEdit st form).1.rows =
          st.rows.map fun e =>
            if e.id = exp.id then
              { e with
                amount := a,
                category := jsTrim form.category,
                note := if jsTrim form.note = "" then none else some (jsTrim form.note),
                date := jsTrim form.date }
            else e) := by
  constructor
  · intro st form today a hp ha hcat
    have ha2 : ¬a ≤ 0 := not_le.mpr ha
    simp [addExpense, hp, ha2, hcat, Store.insertRow]
  · intro st form exp a hedit hp ha hcat hdate
    have ha2 : ¬a ≤ 0 := not_le.mpr ha
    simp [saveEdit, hedit, hp, ha2, hcat, hdate, Store.updateRow]

/-- The record set of the worked scenario in the spec. -/
def demoRecords : List Expense :=
  [{ id := 1, amount := 10, category := "Food", note := none, date := "2024-01-01" },
   { id := 2, amount := 20, category := "Food", note := none, date := "2024-01-10" },
   { id := 3, amount := 5, category := "Books", note := none, date := "2024-01-15" }]

/-- The reference moment of the spec scenario: midday on Wednesday 2024-01-17. -/
def demoNow : JsDate := ⟨⟨2024, 1, 17⟩, 1 / 2⟩

/-- A record dated on the reference date. -/
def todayRecord : Expense :=
  { id := 7, amount := 3, category := "Food", note := none, date := "2024-01-17" }

def demoStore : Store := { rows := [], nextId := 1 }

def goodAddForm : AddForm := { amount := "12.5", category := " Food ", note := "" }

def badAddForm : AddForm := { amount := "abc", category := "Food", note := "" }

def badEditForm : EditForm :=
  { editing := some todayRecord, amount := "abc", category := "Food", note := "",
    date := "2024-01-01" }

/-- The row that the successful demo add writes. -/
def insertedDemoRow : Expense :=
  { id := 1, amount := 25 / 2, category := "Food", note := none, date := "2024-01-17" }

theorem C2_witness :
    ("Books", (5 : Rat)) ∈ totalsByCategory demoRecords ∧
      (5 : Rat) = totalSpending (demoRecords.filter fun e => bucketCategory e == "Books") :=
  ⟨by decide, (C2_totalsByCategory_buckets demoRecords).1 ("Books", (5 : Rat)) (by decide)⟩

theorem C3_witness :
    demoRecords ≠ [] ∧ filteredExpenses demoRecords "all" demoNow = demoRecords :=
  ⟨by decide, C3_filter_all_id demoRecords demoNow (by decide)⟩

theorem C4_witness :
    parseDate todayRecord.date = some demoNow.date ∧
      todayRecord ∈ filteredExpenses [todayRecord] "week" demoNow ∧
      todayRecord ∈ filteredExpenses [todayRecord] "month" demoNow :=
  ⟨by decide,
    C4_today_in_week_and_month [todayRecord] todayRecord demoNow (by decide) (by decide)
      (by decide) (by norm_num [demoNow])⟩

theorem C7_witness :
    (∃ msg, addExpense demoStore badAddForm ⟨2024, 1, 17⟩ = (demoStore, badAddForm, some msg)) ∧
      (∃ msg, saveEdit demoStore badEditForm = (demoStore, badEditForm, some msg)) :=
  ⟨C7_validation_aborts.1 demoStore badAddForm ⟨2024, 1, 17⟩ (Or.inl (by decide)),
   C7_validation_aborts.2 demoStore badEditForm todayRecord rfl (Or.inl (by decide))⟩

/-- Closed-form evaluation of the demo parse (the `Rat` arithmetic is not
kernel-reducible, so it is normalized by tactic). -/
theorem parseFloat_12_5 : parseFloat "12.5" = some ((25 : Rat) / 2) := by
  have h1 : parseFloat "12.5" =
      some (1 * ((digitsToNat ['1', '2'] : Rat) + fracValue ['5']) * pow10 0) := rfl
  have h2 : digitsToNat ['1', '2'] = 12 := rfl
  have h3 : digitsToNat ['5'] = 5 := rfl
  rw [h1, fracValue, pow10, h2, h3]
  norm_num

/-- Closed-form evaluation of the demo add. -/
theorem addExpense_demo :
    addExpense demoStore goodAddForm ⟨2024, 1, 17⟩ =
      ({ rows := [insertedDemoRow], nextId := 2 },
        { amount := "", category := "", note := "" }, none) := by
  have hp : parseFloat goodAddForm.amount = some ((25 : Rat) / 2) := parseFloat_12_5
  have ha : ¬((25 : Rat) / 2 ≤ 0) := by norm_num
  have hfood : jsTrim goodAddForm.category = "Food" := by decide
  have hnote : jsTrim goodAddForm.note = "" := by decide
  have hdate : formatISODate ⟨2024, 1, 17⟩ = "2024-01-17" := by decide
  have hne : ("Food" : String) ≠ "" := by decide
  simp only [addExpense, hp, ha, if_false, hfood, hnote, hne, if_neg, hdate,
    Store.insertRow, demoStore, insertedDemoRow]
  simp

theorem C8_witness :
    insertedDemoRow ∈ (addExpense demoStore goodAddForm ⟨2024, 1, 17⟩).1.rows ∧
      (insertedDemoRow ∈ demoStore.rows ∨
        (0 < insertedDemoRow.amount ∧ jsTrim insertedDemoRow.category ≠ "" ∧
          insertedDemoRow.date ≠ "")) :=
  ⟨by rw [addExpense_demo]; simp,
    C8_written_record_invariants.1 demoStore goodAddForm ⟨2024, 1, 17⟩ insertedDemoRow
      (by rw [addExpense_demo]; simp)⟩

theorem C9_witness :
    ("bogus" : String) ≠ "all" ∧ ("bogus" : String) ≠ "week" ∧
      ("bogus" : String) ≠ "month" ∧
      filteredExpenses demoRecords "bogus" demoNow = demoRecords :=
  ⟨by decide, by decide, by decide,
    C9_unknown_filter_id demoRecords "bogus" demoNow (by decide) (by decide) (by decide)⟩

theorem C10_witness :
    parseFloat goodAddForm.amount = some ((25 : Rat) / 2) ∧
      (addExpense demoStore goodAddForm ⟨2024, 1, 17⟩).1.rows =
        demoStore.rows ++
          [{ id := demoStore.nextId, amount := (25 / 2 : Rat),
             category := jsTrim goodAddForm.category,
             note := if jsTrim goodAddForm.note = "" then none
               else some (jsTrim goodAddForm.note),
             date := formatISODate ⟨2024, 1, 17⟩ }] :=
  ⟨parseFloat_12_5,
    C10_note_normalization.1 demoStore goodAddForm ⟨2024, 1, 17⟩ ((25 : Rat) / 2)
      parseFloat_12_5 (by norm_num) (by decide)⟩
